import Mathlib

/-!
# Verification of the openclaw-mem core against its specification

This file shallowly embeds the parts of the `openclaw-mem` repository that the
frozen claims C1–C10 are about, and proves (or refutes) each claim.

Conventions of the embedding:
* Python `float` values that only ever hold exact decimal constants and are
  compared/added exactly are modelled as `ℚ`; where non-finite values matter
  (importance parsing) a dedicated `PyFloat` type with `nan`/`inf`/`ninf`
  constructors is used.
* Python strings that may carry lone UTF-16 surrogates (which Lean's `String`
  cannot represent) are modelled as `PyStr := List ℕ`, a list of code points.
* Fallible external calls (the rerank HTTP call) are passed in as an
  `Except`-valued oracle argument; file-system state (harvest) is passed as
  explicit lists of named files.
* Python's `sorted(..., reverse=True)` (a stable descending sort) is modelled
  by `sortByScoreDesc`, a left-fold insertion sort that places a later element
  strictly after all earlier elements with an equal or larger key.
-/

namespace OpenclawMem

/-! ## vector.py -/

/-- Sum of squares of a vector; `l2_norm(vec)` in `vector.py` is its square
root.  The square root is irrational in general, but the code only ever tests
`l2_norm(q) == 0.0` (equivalent to `sumSq q = 0`) and divides scores by the
positive constant `l2_norm(q)`, which does not affect the ranking order, so
the embedding works with the exact square. -/
def sumSq (v : List ℚ) : ℚ :=
  (v.map (fun x => x * x)).sum

/-- `dot(a, b)` from `vector.py`: `sum(x * y for x, y in zip(a, b))`. -/
def dot (a b : List ℚ) : ℚ :=
  ((a.zip b).map (fun p => p.1 * p.2)).sum

/-- One step of the stable descending insertion sort: insert `x` after every
already-placed element whose score is `≥ x`'s score (Python's `sorted` with
`reverse=True` is stable, so a later element with an equal key stays after an
earlier one). -/
def insDesc (x : ℤ × ℚ) : List (ℤ × ℚ) → List (ℤ × ℚ)
  | [] => [x]
  | y :: ys => if y.2 < x.2 then x :: y :: ys else y :: insDesc x ys

/-- Stable sort by score descending, processing elements left to right;
models `sorted(pairs, key=lambda x: x[1], reverse=True)`. -/
def sortByScoreDesc (l : List (ℤ × ℚ)) : List (ℤ × ℚ) :=
  l.foldl (fun acc x => insDesc x acc) []

/-- `rank_cosine(query_vec, items, limit)` from `vector.py`.  Items are
`(observation_id, unpacked vector, precomputed norm)`; an empty vector blob
unpacks to `[]`, and in the float model `not norm` on a float is exactly
`norm == 0.0`, so both source guards collapse to the two tests below.  Scores
are represented up to the positive factor `1/l2_norm(q)` (see `sumSq`), which
leaves the ordering untouched. -/
def rankCosine (queryVec : List ℚ) (items : List (ℤ × List ℚ × ℚ))
    (limit : ℕ) : List (ℤ × ℚ) :=
  if sumSq queryVec = 0 then []
  else
    let scored := items.filterMap (fun it =>
      if it.2.1 = [] ∨ it.2.2 = 0 then none
      else some (it.1, dot queryVec it.2.1 / it.2.2))
    (sortByScoreDesc scored).take limit

/-- Update the accumulator association list exactly as a Python `dict` does:
bump the value in place if the key is present, otherwise append the key at the
end (insertion order). -/
def bump (m : List (ℤ × ℚ)) (id : ℤ) (d : ℚ) : List (ℤ × ℚ) :=
  match m with
  | [] => [(id, d)]
  | (k, v) :: rest =>
    if k = id then (k, v + d) :: rest else (k, v) :: bump rest id d

/-- Accumulate one ranked list into the score dict:
`scores[item_id] = scores.get(item_id, 0.0) + 1.0 / (k + rank + 1)` for each
0-based `rank`. -/
def accumList (m : List (ℤ × ℚ)) (k : ℤ) (ranking : List ℤ) : List (ℤ × ℚ) :=
  (ranking.enum.foldl (fun acc p => bump acc p.2 (1 / (k + p.1 + 1))) m)

/-- The full RRF score dict for `ranked_lists` (in Python dict insertion
order: ids keyed in order of first encounter). -/
def accumLists (rankedLists : List (List ℤ)) (k : ℤ) : List (ℤ × ℚ) :=
  rankedLists.foldl (fun m ranking => accumList m k ranking) []

/-- `rank_rrf(ranked_lists, k, limit)` from `vector.py`: build the score
dict, stable-sort by score descending, keep the first `limit`. -/
def rankRrf (rankedLists : List (List ℤ)) (k : ℤ) (limit : ℕ) :
    List (ℤ × ℚ) :=
  (sortByScoreDesc (accumLists rankedLists k)).take limit

/-- The RRF score of one id: the sum, over every list and every 0-based
position of the id in that list, of `1 / (k + position + 1)`. -/
def rrfScore (rankedLists : List (List ℤ)) (k : ℤ) (id : ℤ) : ℚ :=
  (rankedLists.map (fun ranking =>
    (ranking.enum.filterMap (fun p =>
      if p.2 = id then some ((1 : ℚ) / (k + p.1 + 1)) else none)).sum)).sum

/-! ### Properties of the stable descending sort -/

/-- Scores are pairwise non-increasing along the list. -/
def SortedDesc (l : List (ℤ × ℚ)) : Prop :=
  l.Pairwise (fun a b => b.2 ≤ a.2)

theorem insDesc_perm (x : ℤ × ℚ) (l : List (ℤ × ℚ)) :
    List.Perm (insDesc x l) (x :: l) := by
  induction l with
  | nil => exact List.Perm.refl _
  | cons y ys ih =>
    by_cases h : y.2 < x.2
    · simp only [insDesc, if_pos h]
      exact List.Perm.refl _
    · simp only [insDesc, if_neg h]
      exact (ih.cons y).trans (List.Perm.swap x y ys)

theorem insDesc_sortedDesc {x : ℤ × ℚ} {l : List (ℤ × ℚ)}
    (h : SortedDesc l) : SortedDesc (insDesc x l) := by
  induction l with
  | nil => simp [insDesc, SortedDesc]
  | cons y ys ih =>
    rcases List.pairwise_cons.mp h with ⟨hy, hys⟩
    by_cases hlt : y.2 < x.2
    · simp only [insDesc, if_pos hlt]
      refine List.pairwise_cons.mpr ⟨?_, h⟩
      intro z hz
      rcases List.mem_cons.mp hz with h1 | h2
      · exact h1 ▸ le_of_lt hlt
      · exact (hy z h2).trans (le_of_lt hlt)
    · simp only [insDesc, if_neg hlt]
      refine List.pairwise_cons.mpr ⟨?_, ih hys⟩
      intro z hz
      rcases List.mem_cons.mp ((insDesc_perm x ys).mem_iff.mp hz) with h1 | h2
      · exact h1 ▸ le_of_not_lt hlt
      · exact hy z h2

theorem foldl_insDesc_sortedDesc (l : List (ℤ × ℚ)) :
    ∀ acc, SortedDesc acc →
      SortedDesc (l.foldl (fun m x => insDesc x m) acc) := by
  induction l with
  | nil => intro acc h; exact h
  | cons a l ih => intro acc h; exact ih _ (insDesc_sortedDesc h)

theorem sortByScoreDesc_sorted (l : List (ℤ × ℚ)) :
    SortedDesc (sortByScoreDesc l) :=
  foldl_insDesc_sortedDesc l [] (by simp [SortedDesc])

theorem foldl_insDesc_perm (l : List (ℤ × ℚ)) :
    ∀ acc, List.Perm (l.foldl (fun m x => insDesc x m) acc) (acc ++ l) := by
  induction l with
  | nil => intro acc; simp
  | cons a l ih =>
    intro acc
    have h1 : ((a :: l).foldl (fun m x => insDesc x m) acc)
        = l.foldl (fun m x => insDesc x m) (insDesc a acc) := rfl
    rw [h1]
    refine (ih (insDesc a acc)).trans ?_
    refine ((insDesc_perm a acc).append_right l).trans ?_
    exact (List.perm_middle).symm

theorem sortByScoreDesc_perm (l : List (ℤ × ℚ)) :
    List.Perm (sortByScoreDesc l) l := by
  simpa using foldl_insDesc_perm l []

theorem insDesc_filter_ne {x : ℤ × ℚ} {s : ℚ} (hx : ¬ x.2 = s)
    (l : List (ℤ × ℚ)) :
    (insDesc x l).filter (fun p => p.2 = s) = l.filter (fun p => p.2 = s) := by
  induction l with
  | nil => simp [insDesc, hx]
  | cons y ys ih =>
    by_cases hlt : y.2 < x.2
    · simp only [insDesc, if_pos hlt]
      simp [hx]
    · simp only [insDesc, if_neg hlt]
      by_cases hy : y.2 = s
      · simp [List.filter_cons, hy, ih]
      · simp [List.filter_cons, hy, ih]

theorem insDesc_filter_eq {x : ℤ × ℚ} {s : ℚ} (hx : x.2 = s)
    {l : List (ℤ × ℚ)} (hl : SortedDesc l) :
    (insDesc x l).filter (fun p => p.2 = s)
      = l.filter (fun p => p.2 = s) ++ [x] := by
  induction l with
  | nil => simp [insDesc, hx]
  | cons y ys ih =>
    rcases List.pairwise_cons.mp hl with ⟨hy, hys⟩
    by_cases hlt : y.2 < x.2
    · have hfil : (y :: ys).filter (fun p => p.2 = s) = [] := by
        refine List.filter_eq_nil_iff.mpr ?_
        intro a ha
        rcases List.mem_cons.mp ha with h1 | h2
        · simpa [h1] using ne_of_lt (hx ▸ hlt)
        · have : a.2 < s := lt_of_le_of_lt (hy a h2) (hx ▸ hlt)
          simpa using ne_of_lt this
      simp only [insDesc, if_pos hlt]
      rw [List.filter_cons]
      simp [hx, hfil]
    · simp only [insDesc, if_neg hlt]
      by_cases hys' : y.2 = s
      · simp [List.filter_cons, hys', ih hys]
      · simp [List.filter_cons, hys', ih hys]

theorem foldl_insDesc_filter (s : ℚ) (l : List (ℤ × ℚ)) :
    ∀ acc, SortedDesc acc →
      (l.foldl (fun m x => insDesc x m) acc).filter (fun p => p.2 = s)
        = acc.filter (fun p => p.2 = s) ++ l.filter (fun p => p.2 = s) := by
  induction l with
  | nil => intro acc _; simp
  | cons a l ih =>
    intro acc hacc
    have h1 : ((a :: l).foldl (fun m x => insDesc x m) acc)
        = l.foldl (fun m x => insDesc x m) (insDesc a acc) := rfl
    rw [h1, ih _ (insDesc_sortedDesc hacc)]
    by_cases ha : a.2 = s
    · rw [insDesc_filter_eq ha hacc]
      simp [List.filter_cons, ha]
    · rw [insDesc_filter_ne ha]
      simp [List.filter_cons, ha]

/-- Stability of the modelled `sorted(..., reverse=True)`: for every score
value, the sub-sequence of entries carrying that score is unchanged by the
sort (Python's sort is stable, also with `reverse=True`). -/
theorem sortByScoreDesc_filter (s : ℚ) (l : List (ℤ × ℚ)) :
    (sortByScoreDesc l).filter (fun p => p.2 = s)
      = l.filter (fun p => p.2 = s) := by
  simpa using foldl_insDesc_filter s l [] (by simp [SortedDesc])

/-! ### Properties of the RRF accumulator dict -/

/-- First lookup in the association list modelling the Python dict. -/
def lookupQ (m : List (ℤ × ℚ)) (id : ℤ) : Option ℚ :=
  match m with
  | [] => none
  | (k, v) :: rest => if k = id then some v else lookupQ rest id

/-- The score a Python `scores.get(id, 0.0)` would return. -/
def getScore (m : List (ℤ × ℚ)) (id : ℤ) : ℚ :=
  (lookupQ m id).getD 0

/-- Key insertion as a Python dict does it: existing keys keep their slot,
new keys are appended. -/
def keyInsert (acc : List ℤ) (x : ℤ) : List ℤ :=
  if x ∈ acc then acc else acc ++ [x]

/-- Order of first encounter of the ids of `l`. -/
def firstOccur (l : List ℤ) : List ℤ :=
  l.foldl keyInsert []

theorem lookupQ_bump (m : List (ℤ × ℚ)) (i : ℤ) (d : ℚ) (j : ℤ) :
    lookupQ (bump m i d) j
      = if j = i then some ((lookupQ m j).getD 0 + d) else lookupQ m j := by
  induction m with
  | nil =>
    by_cases h : j = i
    · simp [bump, lookupQ, h]
    · simp [bump, lookupQ, h, Ne.symm h]
  | cons q rest ih =>
    obtain ⟨k, v⟩ := q
    by_cases hk : k = i
    · subst hk
      by_cases hj : j = k
      · simp [bump, lookupQ, hj]
      · simp [bump, lookupQ, hj, Ne.symm hj]
    · by_cases hj : k = j
      · subst hj
        simp [bump, lookupQ, hk, Ne.symm hk]
      · simp [bump, lookupQ, hk, hj, ih]

theorem bump_keys (m : List (ℤ × ℚ)) (i : ℤ) (d : ℚ) :
    (bump m i d).map Prod.fst = keyInsert (m.map Prod.fst) i := by
  induction m with
  | nil => simp [bump, keyInsert]
  | cons q rest ih =>
    obtain ⟨k, v⟩ := q
    by_cases hk : k = i
    · subst hk
      simp [bump, keyInsert]
    · have h2 : (bump ((k, v) :: rest) i d).map Prod.fst
          = k :: (bump rest i d).map Prod.fst := by
        simp [bump, hk]
      rw [h2, ih]
      unfold keyInsert
      by_cases hm : i ∈ rest.map Prod.fst
      · simp [List.mem_cons, hm, Ne.symm hk]
      · simp [List.mem_cons, hm, Ne.symm hk]

theorem keyInsert_nodup {acc : List ℤ} (h : acc.Nodup) (x : ℤ) :
    (keyInsert acc x).Nodup := by
  unfold keyInsert
  by_cases hx : x ∈ acc
  · simp [hx, h]
  · simp [hx, List.nodup_append, h]

theorem foldl_keyInsert_nodup (l : List ℤ) :
    ∀ acc, acc.Nodup → (l.foldl keyInsert acc).Nodup := by
  induction l with
  | nil => intro acc h; exact h
  | cons a l ih => intro acc h; exact ih _ (keyInsert_nodup h a)

theorem lookupQ_of_mem {m : List (ℤ × ℚ)} (hnd : (m.map Prod.fst).Nodup)
    {p : ℤ × ℚ} (hp : p ∈ m) : lookupQ m p.1 = some p.2 := by
  induction m with
  | nil => cases hp
  | cons q rest ih =>
    obtain ⟨k, v⟩ := q
    rcases List.mem_cons.mp hp with h1 | h2
    · subst h1
      simp [lookupQ]
    · have hk : ¬ k = p.1 := by
        intro hEq
        have : p.1 ∈ rest.map Prod.fst := List.mem_map_of_mem Prod.fst h2
        exact (List.nodup_cons.mp (by simpa using hnd)).1 (hEq ▸ this)
      simp only [lookupQ, if_neg hk]
      exact ih (List.nodup_cons.mp (by simpa using hnd)).2 h2

theorem getScore_foldl_bump (k : ℤ) (id : ℤ) (ps : List (ℕ × ℤ)) :
    ∀ m : List (ℤ × ℚ),
      getScore (ps.foldl (fun acc p => bump acc p.2 (1 / (k + p.1 + 1))) m) id
        = getScore m id
          + (ps.filterMap (fun p =>
              if p.2 = id then some ((1 : ℚ) / (k + p.1 + 1)) else none)).sum := by
  induction ps with
  | nil => intro m; simp
  | cons p ps ih =>
    intro m
    have h1 : ((p :: ps).foldl (fun acc p => bump acc p.2 (1 / (k + p.1 + 1))) m)
        = ps.foldl (fun acc p => bump acc p.2 (1 / (k + p.1 + 1)))
            (bump m p.2 (1 / (k + p.1 + 1))) := rfl
    rw [h1, ih]
    by_cases hp : p.2 = id
    · subst hp
      simp [getScore, lookupQ_bump, List.filterMap_cons]
      ring
    · simp [getScore, lookupQ_bump, List.filterMap_cons, hp, Ne.symm hp]

theorem foldl_bump_keys (ps : List (ℕ × ℤ)) (w : ℕ → ℚ) :
    ∀ m : List (ℤ × ℚ),
      (ps.foldl (fun acc p => bump acc p.2 (w p.1)) m).map Prod.fst
        = ps.foldl (fun acc p => keyInsert acc p.2) (m.map Prod.fst) := by
  induction ps with
  | nil => intro m; rfl
  | cons p ps ih =>
    intro m
    have h1 : ((p :: ps).foldl (fun acc p => bump acc p.2 (w p.1)) m)
        = ps.foldl (fun acc p => bump acc p.2 (w p.1)) (bump m p.2 (w p.1)) := rfl
    rw [h1, ih, bump_keys]
    rfl

theorem getScore_accumList (m : List (ℤ × ℚ)) (k : ℤ) (r : List ℤ) (id : ℤ) :
    getScore (accumList m k r) id
      = getScore m id
        + (r.enum.filterMap (fun p =>
            if p.2 = id then some ((1 : ℚ) / (k + p.1 + 1)) else none)).sum :=
  getScore_foldl_bump k id r.enum m

theorem getScore_accumLists_aux (k : ℤ) (id : ℤ) (lists : List (List ℤ)) :
    ∀ m, getScore (lists.foldl (fun m r => accumList m k r) m) id
      = getScore m id + rrfScore lists k id := by
  induction lists with
  | nil => intro m; simp [rrfScore]
  | cons r ls ih =>
    intro m
    have h1 : ((r :: ls).foldl (fun m r => accumList m k r) m)
        = ls.foldl (fun m r => accumList m k r) (accumList m k r) := rfl
    rw [h1, ih, getScore_accumList]
    simp only [rrfScore, List.map_cons, List.sum_cons]
    rw [← rrfScore]
    ring

theorem getScore_accumLists (lists : List (List ℤ)) (k : ℤ) (id : ℤ) :
    getScore (accumLists lists k) id = rrfScore lists k id := by
  have h := getScore_accumLists_aux k id lists []
  simpa [accumLists, getScore, lookupQ] using h

theorem accumList_keys (m : List (ℤ × ℚ)) (k : ℤ) (r : List ℤ) :
    (accumList m k r).map Prod.fst = r.foldl keyInsert (m.map Prod.fst) := by
  have h1 : (accumList m k r).map Prod.fst
      = r.enum.foldl (fun acc p => keyInsert acc p.2) (m.map Prod.fst) :=
    foldl_bump_keys r.enum (fun n => (1 : ℚ) / ((k : ℚ) + n + 1)) m
  rw [h1, ← List.enum_map_snd r, List.foldl_map, List.enum_map_snd r]

theorem accumLists_keys (lists : List (List ℤ)) (k : ℤ) :
    (accumLists lists k).map Prod.fst = firstOccur lists.flatten := by
  suffices h : ∀ m : List (ℤ × ℚ),
      (lists.foldl (fun m r => accumList m k r) m).map Prod.fst
        = lists.flatten.foldl keyInsert (m.map Prod.fst) by
    simpa [accumLists, firstOccur] using h []
  induction lists with
  | nil => intro m; simp
  | cons r ls ih =>
    intro m
    have h1 : ((r :: ls).foldl (fun m r => accumList m k r) m)
        = ls.foldl (fun m r => accumList m k r) (accumList m k r) := rfl
    rw [h1, ih, accumList_keys]
    simp [List.foldl_append]

theorem accumLists_keys_nodup (lists : List (List ℤ)) (k : ℤ) :
    ((accumLists lists k).map Prod.fst).Nodup := by
  rw [accumLists_keys]
  exact foldl_keyInsert_nodup _ [] (by simp)

/-! ### Claim C3 -/

/-- C3 (amended): for every family of ranked id lists and every `k ≥ 0` (all
Python denominators positive, so the division never raises), `rank_rrf`
yields empty output when the input lists are all empty, returns at most
`limit` pairs, assigns each returned id the sum over lists of
`1 / (k + r + 1)` over its 0-based positions `r`, and sorts by accumulated
score descending — but ties are broken by order of first encounter across
the ranked lists (Python dict insertion order plus sort stability), not by
ascending id as the claim states. -/
theorem rank_rrf_amended_spec (rankedLists : List (List ℤ)) (k : ℤ)
    (limit : ℕ) (hk : 0 ≤ k) :
    (rankedLists.flatten = [] → rankRrf rankedLists k limit = []) ∧
    (rankRrf rankedLists k limit).length ≤ limit ∧
    (∀ p ∈ rankRrf rankedLists k limit, p.2 = rrfScore rankedLists k p.1) ∧
    SortedDesc (rankRrf rankedLists k limit) ∧
    (accumLists rankedLists k).map Prod.fst = firstOccur rankedLists.flatten ∧
    (∀ s : ℚ,
      (sortByScoreDesc (accumLists rankedLists k)).filter (fun p => p.2 = s)
        = (accumLists rankedLists k).filter (fun p => p.2 = s)) := by
  refine ⟨?_, ?_, ?_, ?_, accumLists_keys rankedLists k,
    fun s => sortByScoreDesc_filter s _⟩
  · intro hflat
    have hkeys : (accumLists rankedLists k).map Prod.fst = [] := by
      rw [accumLists_keys, hflat]
      rfl
    have hnil : accumLists rankedLists k = [] := by
      simpa using hkeys
    simp [rankRrf, hnil, sortByScoreDesc]
  · simp [rankRrf, List.length_take]
  · intro p hp
    have hmem : p ∈ accumLists rankedLists k :=
      (sortByScoreDesc_perm _).mem_iff.mp (List.take_subset _ _ hp)
    have hl := lookupQ_of_mem (accumLists_keys_nodup rankedLists k) hmem
    have hg := getScore_accumLists rankedLists k p.1
    rw [getScore, hl] at hg
    simpa using hg
  · exact List.Pairwise.sublist (List.take_sublist _ _)
      (sortByScoreDesc_sorted _)

/-- C3 counterexample: with ranked lists `[[5], [3]]` and `k = 60`, ids 5
and 3 tie at score `1/61`, and `rank_rrf` returns 5 before 3 (first
encounter order), not in ascending id order as the claim requires. -/
theorem rank_rrf_tie_counterexample :
    rankRrf [[5], [3]] 60 20 = [(5, 1 / 61), (3, 1 / 61)] ∧
    rankRrf [[5], [3]] 60 20 ≠ [(3, 1 / 61), (5, 1 / 61)] := by
  constructor
  · simp only [rankRrf, accumLists, accumList, List.foldl, List.enum,
      List.enumFrom, bump, sortByScoreDesc, insDesc]
    norm_num
  · simp only [rankRrf, accumLists, accumList, List.foldl, List.enum,
      List.enumFrom, bump, sortByScoreDesc, insDesc]
    norm_num

/-- Witness for `rank_rrf_amended_spec` at the repository's own test input
`ranked_lists = [[1, 2], [3, 1]]`, `k = 1`, `limit = 20`. -/
theorem rank_rrf_amended_spec_witness :
    (0 : ℤ) ≤ 1 ∧ (rankRrf [[1, 2], [3, 1]] 1 20).length ≤ 20 :=
  ⟨by decide, (rank_rrf_amended_spec [[1, 2], [3, 1]] 1 20 (by decide)).2.1⟩

/-! ### Claim C10 -/

/-- C10: if the query vector's L2 norm is zero (`sumSq q = 0`), `rank_cosine`
returns the empty list; and every returned pair stems from an item whose
vector blob is non-empty and whose precomputed norm is non-zero (zero, the
only falsy float, is also re-checked by the second guard). -/
theorem rank_cosine_edge_cases (queryVec : List ℚ)
    (items : List (ℤ × List ℚ × ℚ)) (limit : ℕ) :
    (sumSq queryVec = 0 → rankCosine queryVec items limit = []) ∧
    ∀ p ∈ rankCosine queryVec items limit,
      ∃ it ∈ items, p.1 = it.1 ∧ it.2.1 ≠ [] ∧ it.2.2 ≠ 0 := by
  constructor
  · intro h
    simp [rankCosine, h]
  · intro p hp
    by_cases h : sumSq queryVec = 0
    · simp [rankCosine, h] at hp
    · simp only [rankCosine, if_neg h] at hp
      have hmem : p ∈ items.filterMap (fun it =>
          if it.2.1 = [] ∨ it.2.2 = 0 then none
          else some (it.1, dot queryVec it.2.1 / it.2.2)) :=
        (sortByScoreDesc_perm _).mem_iff.mp (List.take_subset _ _ hp)
      rcases List.mem_filterMap.mp hmem with ⟨it, hit, heq⟩
      by_cases hbad : it.2.1 = [] ∨ it.2.2 = 0
      · simp [hbad] at heq
      · push_neg at hbad
        refine ⟨it, hit, ?_, hbad.1, hbad.2⟩
        rw [if_neg (by push_neg; exact hbad)] at heq
        have := Option.some.inj heq
        rw [← this]

/-- Witness for `rank_cosine_edge_cases`: the zero-norm query returns `[]`,
and the surviving item of a mixed batch has a non-empty blob and non-zero
norm. -/
theorem rank_cosine_edge_cases_witness :
    (rankCosine [(0 : ℚ)] [((1 : ℤ), ([1] : List ℚ), (1 : ℚ))] 5 = []) ∧
    (∃ it ∈ [((7 : ℤ), ([2] : List ℚ), (1 : ℚ)), (8, [], 1), (9, [1], 0)],
      ((7 : ℤ), (2 : ℚ)).1 = it.1 ∧ it.2.1 ≠ [] ∧ it.2.2 ≠ 0) := by
  constructor
  · exact (rank_cosine_edge_cases [0] [(1, [1], 1)] 5).1 (by norm_num [sumSq])
  · exact (rank_cosine_edge_cases [1]
      [(7, [2], 1), (8, [], 1), (9, [1], 0)] 5).2 (7, 2) (by
        simp only [rankCosine, sumSq, dot, sortByScoreDesc, insDesc,
          List.foldl, List.filterMap]
        norm_num)

/-! ## importance.py -/

/-- Python float values reaching the importance parser: finite rationals or
the non-finite floats `nan` / `inf` / `-inf`. -/
inductive PyFloat where
  | finite (q : ℚ)
  | nan
  | inf
  | ninf
deriving DecidableEq, Repr

/-- A Python value as it can reach `parse_importance_score` after a JSON
decode: `None`, a bool, a number (int or float), a string, a list, or a
string-keyed dict. -/
inductive PyVal where
  | none
  | bool (b : Bool)
  | num (x : PyFloat)
  | str (s : String)
  | list (xs : List PyVal)
  | dict (entries : List (String × PyVal))
deriving Repr

/-- `d.get(key)`: the stored value, or `None` when absent.  Python dict keys
are unique, so first-match lookup is exact. -/
def dictGet (entries : List (String × PyVal)) (key : String) : PyVal :=
  match entries with
  | [] => .none
  | (k, v) :: rest => if k = key then v else dictGet rest key

/-- `_clamp01` from `importance.py`: non-finite values collapse to `0.0`
(`not math.isfinite(x)`), then the value is clamped into `[0, 1]`. -/
def clamp01 (x : PyFloat) : ℚ :=
  match x with
  | .finite q => if q < 0 then 0 else if q > 1 then 1 else q
  | _ => 0

/-- `unicodedata.normalize("NFKC", s)`, modelled as the identity: NFKC folds
compatibility characters (e.g. full-width variants) into canonical ones, and
no property proved below depends on that folding, only on the subsequent
table lookup applied to the folded string. -/
def nfkc (s : String) : String := s

/-- Python `str.strip()`: drop whitespace from both ends (Python also
strips a few rare Unicode spaces, which no property below depends on). -/
def pyStrip (s : String) : String :=
  ⟨((s.data.dropWhile Char.isWhitespace).reverse.dropWhile
      Char.isWhitespace).reverse⟩

/-- Python `str.lower()` (ASCII case folding; the keyword tables below are
ASCII). -/
def pyLower (s : String) : String := ⟨s.data.map Char.toLower⟩

/-- `_LABEL_TO_SCORE` from `importance.py`. -/
def labelToScore (label : String) : Option ℚ :=
  if label = "ignore" then some 0
  else if label = "nice_to_have" then some (1 / 2)
  else if label = "must_remember" then some (4 / 5)
  else none

/-- `_LABEL_ALIAS_TO_CANONICAL` from `importance.py` (`.get(key, key)`). -/
def labelAlias (key : String) : String :=
  if key = "must remember" then "must_remember"
  else if key = "must-remember" then "must_remember"
  else if key = "nice to have" then "nice_to_have"
  else if key = "nice-to-have" then "nice_to_have"
  else if key = "low" then "ignore"
  else if key = "medium" then "nice_to_have"
  else if key = "high" then "must_remember"
  else key

/-- `_normalize_label` from `importance.py`: only strings normalize; the
NFKC-stripped-lowered key is alias-resolved and must be in the score table. -/
def normalizeLabel (v : PyVal) : Option String :=
  match v with
  | .str s =>
    let key := labelAlias (pyLower (pyStrip (nfkc s)))
    if (labelToScore key).isSome then some key else Option.none
  | _ => Option.none

/-- Digit run to a natural number. -/
def digitsToNat (ds : List Char) : ℕ :=
  ds.foldl (fun acc c => acc * 10 + (c.toNat - Char.toNat (Char.ofNat 48))) 0

/-- Decimal mantissa with optional fraction and optional exponent, the
grammar accepted by Python `float()` for finite literals (underscore
separators are not modelled; no property below depends on them). -/
def parseMantissa (cs : List Char) : Option ℚ :=
  let intPart := cs.takeWhile Char.isDigit
  let rest := cs.dropWhile Char.isDigit
  let mantissa : Option (ℚ × List Char) :=
    match rest with
    | '.' :: frac =>
      let fracDigits := frac.takeWhile Char.isDigit
      let rest2 := frac.dropWhile Char.isDigit
      if intPart = [] ∧ fracDigits = [] then Option.none
      else some ((digitsToNat intPart : ℚ)
          + (digitsToNat fracDigits : ℚ) / (10 ^ fracDigits.length), rest2)
    | _ =>
      if intPart = [] then Option.none else some ((digitsToNat intPart : ℚ), rest)
  match mantissa with
  | Option.none => Option.none
  | some (q, rest2) =>
    match rest2 with
    | [] => some q
    | 'e' :: ex =>
      match ex with
      | '+' :: ds => if ds ≠ [] ∧ ds.all Char.isDigit
          then some (q * 10 ^ (digitsToNat ds)) else Option.none
      | '-' :: ds => if ds ≠ [] ∧ ds.all Char.isDigit
          then some (q / 10 ^ (digitsToNat ds)) else Option.none
      | ds => if ds ≠ [] ∧ ds.all Char.isDigit
          then some (q * 10 ^ (digitsToNat ds)) else Option.none
    | _ => Option.none

/-- Python `float(s)`: strips whitespace, case-insensitive `inf` /
`infinity` / `nan` with optional sign, otherwise a finite decimal literal;
anything else raises (modelled as `Option.none`). -/
def pyFloatOfString (s : String) : Option PyFloat :=
  let t := pyLower (pyStrip s)
  let (neg, body) :=
    match t.toList with
    | '+' :: rest => (false, rest)
    | '-' :: rest => (true, rest)
    | cs => (false, cs)
  if body = ['i', 'n', 'f'] ∨ body = ['i', 'n', 'f', 'i', 'n', 'i', 't', 'y'] then
    some (if neg then PyFloat.ninf else PyFloat.inf)
  else if body = ['n', 'a', 'n'] then some PyFloat.nan
  else
    match parseMantissa body with
    | some q => some (.finite (if neg then -q else q))
    | Option.none => Option.none

/-- `_parse_score_like` from `importance.py`: bools never parse; numbers
parse when finite; strings are NFKC-normalized, stripped, must be non-empty,
fed to `float()`, and must come out finite; everything else is `None`. -/
def parseScoreLike (v : PyVal) : Option ℚ :=
  match v with
  | .bool _ => Option.none
  | .num x =>
    match x with
    | .finite q => some q
    | _ => Option.none
  | .str s =>
    let normalized := pyStrip (nfkc s)
    if normalized = "" then Option.none
    else
      match pyFloatOfString normalized with
      | some (.finite q) => some q
      | _ => Option.none
  | _ => Option.none

/-- `label_from_score` from `importance.py`: clamp, then threshold at 0.80
and 0.50. -/
def label_from_score (score : PyFloat) : String :=
  let s := clamp01 score
  if s ≥ 4 / 5 then "must_remember"
  else if s ≥ 1 / 2 then "nice_to_have"
  else "ignore"

/-- `parse_importance_score` from `importance.py`: score-like values win,
then a dict's `score` field, then a dict's normalized `label` (scored via
the label table), and everything else is `0.0`. -/
def parse_importance_score (v : PyVal) : ℚ :=
  match parseScoreLike v with
  | some q => clamp01 (.finite q)
  | Option.none =>
    match v with
    | .dict entries =>
      match parseScoreLike (dictGet entries "score") with
      | some q => clamp01 (.finite q)
      | Option.none =>
        match normalizeLabel (dictGet entries "label") with
        | some key => (labelToScore key).getD 0
        | Option.none => 0
    | _ => 0

theorem clamp01_bounds (x : PyFloat) : 0 ≤ clamp01 x ∧ clamp01 x ≤ 1 := by
  cases x with
  | finite q =>
    simp only [clamp01]
    split_ifs with h1 h2 <;> constructor <;> linarith
  | nan => simp [clamp01]
  | inf => simp [clamp01]
  | ninf => simp [clamp01]

theorem labelToScore_bounds (key : String) (q : ℚ)
    (h : labelToScore key = some q) : 0 ≤ q ∧ q ≤ 1 := by
  unfold labelToScore at h
  split at h
  · cases h; norm_num
  · split at h
    · cases h; norm_num
    · split at h
      · cases h; norm_num
      · cases h

/-! ### Claim C4 -/

/-- C4: importance parsing is total (the embedding is a total function,
mirroring the code's catch-all fallthroughs and the `try/except` around
`float()`), every result lies in `[0,1]`; nulls, booleans, non-finite
numbers and unrecognized labels yield `0.0`; and `label_from_score` maps
`score ≥ 0.80` to `must_remember`, `0.50 ≤ score < 0.80` to `nice_to_have`,
and `score < 0.50` to `ignore`. -/
theorem importance_parse_total_and_thresholds :
    (∀ v : PyVal, 0 ≤ parse_importance_score v ∧ parse_importance_score v ≤ 1) ∧
    parse_importance_score PyVal.none = 0 ∧
    (∀ b, parse_importance_score (.bool b) = 0) ∧
    (parse_importance_score (.num .nan) = 0 ∧
     parse_importance_score (.num .inf) = 0 ∧
     parse_importance_score (.num .ninf) = 0) ∧
    (∀ s, normalizeLabel (.str s) = Option.none →
      parse_importance_score (.dict [("label", .str s)]) = 0) ∧
    (∀ q : ℚ,
      (4 / 5 ≤ q → label_from_score (.finite q) = "must_remember") ∧
      (1 / 2 ≤ q → q < 4 / 5 → label_from_score (.finite q) = "nice_to_have") ∧
      (q < 1 / 2 → label_from_score (.finite q) = "ignore")) := by
  refine ⟨?_, rfl, fun b => rfl, ⟨rfl, rfl, rfl⟩, ?_, ?_⟩
  · intro v
    unfold parse_importance_score
    split
    · exact clamp01_bounds _
    · split
      · split
        · exact clamp01_bounds _
        · split
          · rename_i key hkey
            cases hq : labelToScore key with
            | none => simp [hq]
            | some q => simpa [hq] using labelToScore_bounds key q hq
          · norm_num
      · norm_num
  · intro s h
    have h1 : dictGet [("label", PyVal.str s)] "score" = PyVal.none := rfl
    have h2 : dictGet [("label", PyVal.str s)] "label" = PyVal.str s := rfl
    simp [parse_importance_score, parseScoreLike, h1, h2, h]
  · intro q
    refine ⟨fun h => ?_, fun h1 h2 => ?_, fun h => ?_⟩
    · simp only [label_from_score, clamp01]
      split_ifs <;> first | rfl | (exfalso; linarith)
    · simp only [label_from_score, clamp01]
      split_ifs <;> first | rfl | (exfalso; linarith)
    · simp only [label_from_score, clamp01]
      split_ifs <;> first | rfl | (exfalso; linarith)

/-- Witness for `importance_parse_total_and_thresholds`: a canonical object
score parses into range, the unrecognized label `banana` yields `0.0`, and
`0.9` labels as `must_remember`. -/
theorem importance_parse_witness :
    (0 ≤ parse_importance_score (.dict [("score", .num (.finite (43 / 50)))]) ∧
      parse_importance_score (.dict [("score", .num (.finite (43 / 50)))]) ≤ 1) ∧
    parse_importance_score (.dict [("label", .str "banana")]) = 0 ∧
    label_from_score (.finite (9 / 10)) = "must_remember" := by
  refine ⟨importance_parse_total_and_thresholds.1 _, ?_, ?_⟩
  · exact importance_parse_total_and_thresholds.2.2.2.2.1 "banana" (by decide)
  · exact (importance_parse_total_and_thresholds.2.2.2.2.2 (9 / 10)).1 (by norm_num)

/-! ## heuristic_v1.py -/

/-- `needle in hay` for Python strings, on code-point lists. -/
def isInfixOfCl (needle : List Char) : List Char → Bool
  | [] => needle.isEmpty
  | c :: t => needle.isPrefixOf (c :: t) || isInfixOfCl needle t

/-- Python substring containment `needle in hay`. -/
def strIn (needle hay : String) : Bool :=
  isInfixOfCl needle.data hay.data

/-- `any(kw in hay for kw in keys)`. -/
def anyIn (keys : List String) (hay : String) : Bool :=
  keys.any (fun kw => strIn kw hay)

/-- `re.search`-style scan: try the position predicate at every suffix,
tracking the previous character for word-boundary tests. -/
def scanPos (p : Option Char → List Char → Bool) :
    Option Char → List Char → Bool
  | prev, [] => p prev []
  | prev, c :: t => p prev (c :: t) || scanPos p (some c) t

def searchWith (p : Option Char → List Char → Bool) (s : String) : Bool :=
  scanPos p Option.none s.data

/-- Python regex `\w` (ASCII part).  Python additionally counts non-ASCII
letters as word characters; every boundary-sensitive keyword below is ASCII
and no proved property depends on boundaries next to non-ASCII characters. -/
def isWordChar (c : Char) : Bool :=
  c.isAlphanum || c = '_'

/-- `\b` between an optional previous character and the rest: the edge of
the string counts as non-word. -/
def bndBefore (prev : Option Char) : Bool :=
  match prev with
  | Option.none => true
  | some c => !isWordChar c

/-- `\b` after a word character: the next character (if any) must be
non-word. -/
def bndAfterWord (rest : List Char) : Bool :=
  match rest with
  | [] => true
  | c :: _ => !isWordChar c

/-- Consume an exact literal prefix. -/
def dropLit (lit : List Char) (l : List Char) : Option (List Char) :=
  match lit, l with
  | [], rest => some rest
  | a :: la, b :: lb => if a = b then dropLit la lb else Option.none
  | _ :: _, [] => Option.none

/-- Consume exactly `n` characters satisfying `f`. -/
def dropN (f : Char → Bool) : ℕ → List Char → Option (List Char)
  | 0, l => some l
  | n + 1, c :: t => if f c then dropN f n t else Option.none
  | _ + 1, [] => Option.none

/-- Hex digit of the (lower-cased) UUID pattern `[0-9a-f]`. -/
def isHexDig (c : Char) : Bool :=
  c.isDigit || (Char.ofNat 97 ≤ c && c ≤ Char.ofNat 102)

/-- The apostrophe character, for keywords containing one. -/
def apos : Char := Char.ofNat 39

def dontKw : String := ⟨['d', 'o', 'n', apos, 't']⟩

def weLlKw : String := ⟨['w', 'e', apos, 'l', 'l']⟩

/-- `_has_url`: `re.search(r"https?://\S+", text, IGNORECASE)` — scanned on
the lower-cased text, requiring one non-space character after the scheme. -/
def hasUrl (tl : String) : Bool :=
  searchWith (fun _ l =>
    (match dropLit "http://".data l with
     | some (c :: _) => !c.isWhitespace
     | _ => false) ||
    (match dropLit "https://".data l with
     | some (c :: _) => !c.isWhitespace
     | _ => false)) tl

/-- `_has_uuid`: the 8-4-4-4-12 hex pattern with `\b` on both sides,
scanned on the lower-cased text (the source uses IGNORECASE). -/
def hasUuid (tl : String) : Bool :=
  searchWith (fun prev l =>
    bndBefore prev &&
      (match dropN isHexDig 8 l with
       | some ('-' :: r1) =>
         match dropN isHexDig 4 r1 with
         | some ('-' :: r2) =>
           match dropN isHexDig 4 r2 with
           | some ('-' :: r3) =>
             match dropN isHexDig 4 r3 with
             | some ('-' :: r4) =>
               match dropN isHexDig 12 r4 with
               | some rest => bndAfterWord rest
               | _ => false
             | _ => false
           | _ => false
         | _ => false
       | _ => false)) tl

/-- Character class `[a-z0-9_.]` of `_has_config_path` (lower-cased scan). -/
def isCfgClass (c : Char) : Bool :=
  c.isDigit || (Char.ofNat 97 ≤ c && c ≤ Char.ofNat 122) || c = '_' || c = '.'

/-- After at least one class character (the last one being `lastc`), the
pattern `[a-z0-9_.]+\b` may stop wherever a word boundary holds, or keep
consuming class characters (models the regex engine's backtracking). -/
def cfgTailGo (lastc : Char) : List Char → Bool
  | [] => isWordChar lastc
  | c :: t =>
    (isWordChar lastc != isWordChar c) ||
      (isCfgClass c && cfgTailGo c t)

/-- `_has_config_path`: `re.search(r"\bagents\.[a-z0-9_.]+\b", text,
IGNORECASE)`, scanned on the lower-cased text. -/
def hasCfgPath (tl : String) : Bool :=
  searchWith (fun prev l =>
    bndBefore prev &&
      (match dropLit "agents.".data l with
       | some (c :: t) => isCfgClass c && cfgTailGo c t
       | _ => false)) tl

/-- `_has_env_var`: `"OPENCLAW_" in text` (case-sensitive, original text). -/
def hasEnvVar (text : String) : Bool :=
  strIn "OPENCLAW_" text

/-- `_has_cli_command` keyword list (checked on the lower-cased text). -/
def hasCliCommand (tl : String) : Bool :=
  anyIn ["uv run", "python -m", "openclaw ", "openclaw-mem"] tl

/-- `tl.split(":", 1)[-1]`: everything after the first colon. -/
def afterFirstColon : List Char → List Char
  | [] => []
  | c :: t => if c = ':' then t else afterFirstColon t

/-- `re.match(r"^(todo|task|reminder)(?:[:：\s-]|$)", summary_part)`. -/
def taskMarkerHead (sp : List Char) : Bool :=
  ["todo", "task", "reminder"].any (fun m =>
    match dropLit m.data sp with
    | some [] => true
    | some (c :: _) => c = ':' || c = '：' || c.isWhitespace || c = '-'
    | _ => false)

/-- `_is_task_like` from `heuristic_v1.py`. -/
def isTaskLike (text : String) (kind : String) : Bool :=
  let t := pyStrip text
  let tl := pyLower t
  if pyLower (pyStrip kind) = "task" then true
  else
    let sp := if tl.data.contains ':'
      then pyStrip ⟨afterFirstColon tl.data⟩ else tl
    taskMarkerHead sp.data || strIn "要做" t || strIn "待辦" t

/-- `re.search(r"\bby\s+\d{4}-\d{2}-\d{2}\b", tl)`. -/
def hasDeadlineDate (tl : String) : Bool :=
  searchWith (fun prev l =>
    bndBefore prev &&
      (match dropLit "by".data l with
       | some rest =>
         !(rest.takeWhile Char.isWhitespace).isEmpty &&
           (match dropN Char.isDigit 4 (rest.dropWhile Char.isWhitespace) with
            | some ('-' :: r3) =>
              (match dropN Char.isDigit 2 r3 with
               | some ('-' :: r4) =>
                 (match dropN Char.isDigit 2 r4 with
                  | some rest2 => bndAfterWord rest2
                  | _ => false)
               | _ => false)
            | _ => false)
       | _ => false)) tl

/-- Deadline trigger of block F: the `by YYYY-MM-DD` regex, CJK time words
in the original text, or the English words in the lower-cased text. -/
def deadlineSignal (text tl : String) : Bool :=
  hasDeadlineDate tl || anyIn ["今天", "明天", "之前"] text ||
    anyIn ["today", "tomorrow", "eod", "before"] tl

/-- `re.search(r"\b(lol|thanks|thx|ok|got it|nice)\b", tl)`. -/
def chitchatRegex (tl : String) : Bool :=
  searchWith (fun prev l =>
    bndBefore prev &&
      ["lol", "thanks", "thx", "ok", "got it", "nice"].any (fun w =>
        match dropLit w.data l with
        | some rest => bndAfterWord rest
        | _ => false)) tl

/-- Block G trigger. -/
def chitchatSignal (text tl : String) : Bool :=
  chitchatRegex tl || anyIn ["收到", "謝謝", "哈哈"] text

/-- Block H keyword list. -/
def progressSignal (tl : String) : Bool :=
  anyIn ["done", "finished", "pushed", "merged", "wip"] tl

/-- Block I meeting keywords. -/
def meetingSignal (text tl : String) : Bool :=
  anyIn ["meeting", "call"] tl || anyIn ["開會", "約"] text

/-- `am` or `pm` here, followed by a word boundary. -/
def ampmAt (l : List Char) : Bool :=
  (match dropLit "am".data l with
   | some rest => bndAfterWord rest
   | _ => false) ||
  (match dropLit "pm".data l with
   | some rest => bndAfterWord rest
   | _ => false)

/-- Exactly two digits here, followed by a word boundary. -/
def twoDigitsBnd (l : List Char) : Bool :=
  match l with
  | d1 :: d2 :: rest => d1.isDigit && d2.isDigit && bndAfterWord rest
  | _ => false

/-- `re.search(r"\b\d{1,2}(am|pm)\b", tl)` or
`re.search(r"\b\d{1,2}:\d{2}\b", tl)`. -/
def hasClockTime (tl : String) : Bool :=
  searchWith (fun prev l =>
    bndBefore prev &&
      ((match l with
        | d1 :: d2 :: rest => d1.isDigit && d2.isDigit && ampmAt rest
        | _ => false) ||
       (match l with
        | d1 :: rest => d1.isDigit && ampmAt rest
        | _ => false))) tl ||
  searchWith (fun prev l =>
    bndBefore prev &&
      ((match l with
        | d1 :: d2 :: ':' :: r => d1.isDigit && d2.isDigit && twoDigitsBnd r
        | _ => false) ||
       (match l with
        | d1 :: ':' :: r => d1.isDigit && twoDigitsBnd r
        | _ => false))) tl

/-- Block J trigger: private-key preambles (IGNORECASE, hence on `tl`) or
the case-sensitive token prefixes on the original text. -/
def secretSignal (text tl : String) : Bool :=
  strIn "begin rsa private key" tl || strIn "begin openssh private key" tl ||
    anyIn ["sk-", "ghp_", "AKIA"] text

/-- Block A trigger (English keywords on `tl`, CJK keywords on `text`). -/
def prefSignal (text tl : String) : Bool :=
  anyIn ["prefer", "preference", "always", "never", "must", "should",
    "do not", dontKw, "required", "rule", "policy", "hard requirement"] tl ||
  anyIn ["偏好", "規則", "一定", "必須", "不要", "禁止", "原則", "硬性",
    "需求", "不做", "不改"] text

/-- Block B `decision_kw`. -/
def decisionKwSignal (text tl : String) : Bool :=
  anyIn ["decide", "decision", "decided", "chose", "chosen", "we will",
    weLlKw, "mvp", "scope", "architecture"] tl ||
  anyIn ["決定", "選擇", "採用", "方案", "架構", "範圍"] text

/-- Block B `setup_kw`. -/
def setupKwSignal (tl : String) : Bool :=
  anyIn ["created", "create", "added", "set up", "setup"] tl &&
    (strIn "repo" tl || strIn "repository" tl || strIn "cron" tl ||
     strIn "jobid" tl || strIn "github.com" tl)

/-- Block D keyword list. -/
def runbookSignal (tl : String) : Bool :=
  anyIn ["cron", "every ", "tz", "asia/taipei", "how to", "how to run",
    "openclaw ", "uv run", "python -m"] tl

/-- Block E `has_error` keyword list. -/
def errorSignal (tl : String) : Bool :=
  anyIn ["error", "failed", "exception", "traceback", "timeout",
    "rate_limit", "unauthorized", "forbidden"] tl

/-- The nested cause/fix keyword list of block E. -/
def causeFixSignal (tl : String) : Bool :=
  anyIn ["root cause", "fixed by", "workaround", "mitigation",
    "resolved by"] tl

/-- The fields of the observation dict that `grade_observation` reads. -/
structure GradeObs where
  kind : Option String
  tool_name : Option String
  tool : Option String
  summary : Option String

/-- Python `a or b or ""` over optional strings (None and "" are falsy). -/
def firstTruthy : List (Option String) → String
  | [] => ""
  | some s :: rest => if s = "" then firstTruthy rest else s
  | Option.none :: rest => firstTruthy rest

/-- `_text_from_obs` from `heuristic_v1.py`. -/
def textFromObs (o : GradeObs) : String :=
  let tool := pyStrip (firstTruthy [o.tool_name, o.tool])
  let summary := pyStrip (firstTruthy [o.summary])
  if tool ≠ "" ∧ summary ≠ "" then tool ++ ": " ++ summary
  else if summary ≠ "" then summary
  else tool

/-- `kind = str(obs.get("kind") or "").strip()`. -/
def gradeKind (o : GradeObs) : String :=
  pyStrip (o.kind.getD "")

/-- `tl = (text or "").lower()`. -/
def gradeTl (o : GradeObs) : String :=
  pyLower (textFromObs o)

/-- The heuristic grader's `_clamp01` (finite floats only). -/
def clampQ (x : ℚ) : ℚ :=
  if x < 0 then 0 else if x > 1 then 1 else x

/-- `is_task` as computed in `grade_observation`. -/
def gradeIsTask (o : GradeObs) : Bool :=
  isTaskLike (textFromObs o) (gradeKind o)

/-- `has_ident` as computed in `grade_observation` (block C). -/
def gradeHasIdent (o : GradeObs) : Bool :=
  hasUrl (gradeTl o) || hasUuid (gradeTl o) || hasCfgPath (gradeTl o) ||
    hasEnvVar (textFromObs o) || hasCliCommand (gradeTl o)

/-- `has_error` as computed in `grade_observation` (block E). -/
def gradeHasError (o : GradeObs) : Bool :=
  errorSignal (gradeTl o)

/-- `if b: score += d` as a gated addend. -/
def gate (b : Bool) (d : ℚ) : ℚ :=
  if b then d else 0

/-- The pre-clamp score of `grade_observation`: the source's sequential
`score += δ` / `score -= δ` updates written as the equivalent sum of gated
terms, one per block in source order (J, A, B, C, D, E, E-nested cause/fix,
F, F-nested deadline, G, H, I).  Branch conditions are verbatim; note the
cause/fix term is gated on `has_error` because the source nests it inside
`if has_error:`. -/
def preScore (o : GradeObs) : ℚ :=
  (3 : ℚ) / 10
    - gate (secretSignal (textFromObs o) (gradeTl o)) (2 / 5)
    + gate (prefSignal (textFromObs o) (gradeTl o)) (2 / 5)
    + gate (!gradeIsTask o &&
        (decisionKwSignal (textFromObs o) (gradeTl o) ||
          setupKwSignal (gradeTl o))) (3 / 10)
    + gate (gradeHasIdent o) (1 / 5)
    + gate (runbookSignal (gradeTl o)) (1 / 5)
    + gate (gradeHasError o) (3 / 20)
    + gate (gradeHasError o && causeFixSignal (gradeTl o)) (1 / 10)
    + gate (gradeIsTask o) (1 / 5)
    + gate (gradeIsTask o && deadlineSignal (textFromObs o) (gradeTl o)) (1 / 10)
    - gate (chitchatSignal (textFromObs o) (gradeTl o)) (1 / 4)
    - gate (progressSignal (gradeTl o) &&
        !(gradeHasIdent o || gradeHasError o || gradeIsTask o)) (1 / 5)
    - gate (meetingSignal (textFromObs o) (gradeTl o) && hasClockTime (gradeTl o) &&
        !(gradeIsTask o || gradeHasIdent o || gradeHasError o)) (3 / 20)

/-- `score = _clamp01(score)` at the end of `grade_observation` (the later
`make_importance` clamp is idempotent on this value). -/
def grade_score (o : GradeObs) : ℚ :=
  clampQ (preScore o)

/-- `preScore` with the cause/fix addend deleted: what the grader computes
when the cause/fix rule contributes nothing.  Used only to state what that
rule adds. -/
def preScoreSansCauseFix (o : GradeObs) : ℚ :=
  (3 : ℚ) / 10
    - gate (secretSignal (textFromObs o) (gradeTl o)) (2 / 5)
    + gate (prefSignal (textFromObs o) (gradeTl o)) (2 / 5)
    + gate (!gradeIsTask o &&
        (decisionKwSignal (textFromObs o) (gradeTl o) ||
          setupKwSignal (gradeTl o))) (3 / 10)
    + gate (gradeHasIdent o) (1 / 5)
    + gate (runbookSignal (gradeTl o)) (1 / 5)
    + gate (gradeHasError o) (3 / 20)
    + gate (gradeIsTask o) (1 / 5)
    + gate (gradeIsTask o && deadlineSignal (textFromObs o) (gradeTl o)) (1 / 10)
    - gate (chitchatSignal (textFromObs o) (gradeTl o)) (1 / 4)
    - gate (progressSignal (gradeTl o) &&
        !(gradeHasIdent o || gradeHasError o || gradeIsTask o)) (1 / 5)
    - gate (meetingSignal (textFromObs o) (gradeTl o) && hasClockTime (gradeTl o) &&
        !(gradeIsTask o || gradeHasIdent o || gradeHasError o)) (3 / 20)

/-! ### Claim C9 -/

/-- The counterexample observation: a summary containing the cause/fix
phrase `workaround` but none of the error keywords. -/
def obsWorkaround : GradeObs :=
  ⟨some "note", Option.none, Option.none, some "workaround applied"⟩

/-- C9 (amended): the heuristic grader adds the +0.10 cause/fix adjustment
only when the text ALSO triggers the error/incident signal — the source
nests the cause/fix check inside `if has_error:` — and the final score is
the clamp of the accumulated sum.  When no error keyword is present, a
cause/fix phrase contributes nothing. -/
theorem heuristic_cause_fix_amended (o : GradeObs) :
    (gradeHasError o = false →
      grade_score o = clampQ (preScoreSansCauseFix o)) ∧
    (gradeHasError o = true → causeFixSignal (gradeTl o) = true →
      grade_score o = clampQ (preScoreSansCauseFix o + 1 / 10)) := by
  have hsum : preScore o = preScoreSansCauseFix o
      + gate (gradeHasError o && causeFixSignal (gradeTl o)) (1 / 10) := by
    simp only [preScore, preScoreSansCauseFix]
    ring
  constructor
  · intro h
    unfold grade_score
    rw [hsum, h]
    simp [gate]
  · intro h1 h2
    unfold grade_score
    rw [hsum, h1, h2]
    simp [gate]

/-- Witness for `heuristic_cause_fix_amended`: an observation carrying both
an error keyword and a cause/fix phrase gets the +0.10 on top of the rest
(here 0.30 baseline + 0.15 error + 0.10 cause/fix = 0.55). -/
theorem heuristic_cause_fix_amended_witness :
    grade_score ⟨some "note", Option.none, Option.none,
        some "timeout resolved by retry"⟩
      = clampQ (preScoreSansCauseFix ⟨some "note", Option.none, Option.none,
          some "timeout resolved by retry"⟩ + 1 / 10) :=
  (heuristic_cause_fix_amended _).2 (by decide) (by decide)

/-- C9 counterexample: the observation `workaround applied` contains the
cause/fix phrase `workaround`, yet its score stays at the 0.30 baseline:
the +0.10 adjustment the claim promises is not applied, because no error
keyword is present. -/
theorem heuristic_cause_fix_counterexample :
    causeFixSignal (gradeTl obsWorkaround) = true ∧
    gradeHasError obsWorkaround = false ∧
    grade_score obsWorkaround = 3 / 10 ∧
    grade_score obsWorkaround ≠ 3 / 10 + 1 / 10 := by
  have e1 : secretSignal (textFromObs obsWorkaround) (gradeTl obsWorkaround)
      = false := by decide
  have e2 : prefSignal (textFromObs obsWorkaround) (gradeTl obsWorkaround)
      = false := by decide
  have e3 : gradeIsTask obsWorkaround = false := by decide
  have e4 : decisionKwSignal (textFromObs obsWorkaround) (gradeTl obsWorkaround)
      = false := by decide
  have e5 : setupKwSignal (gradeTl obsWorkaround) = false := by decide
  have e6 : gradeHasIdent obsWorkaround = false := by decide
  have e7 : runbookSignal (gradeTl obsWorkaround) = false := by decide
  have e8 : gradeHasError obsWorkaround = false := by decide
  have e9 : deadlineSignal (textFromObs obsWorkaround) (gradeTl obsWorkaround)
      = false := by decide
  have e10 : chitchatSignal (textFromObs obsWorkaround) (gradeTl obsWorkaround)
      = false := by decide
  have e11 : progressSignal (gradeTl obsWorkaround) = false := by decide
  have e12 : meetingSignal (textFromObs obsWorkaround) (gradeTl obsWorkaround)
      = false := by decide
  have hpre : preScore obsWorkaround = 3 / 10 := by
    rw [preScore, e1, e2, e3, e4, e5, e6, e7, e8, e9, e10, e11, e12]
    norm_num [gate]
  refine ⟨by decide, e8, ?_, ?_⟩
  · rw [grade_score, hpre]
    norm_num [clampQ]
  · rw [grade_score, hpre]
    norm_num [clampQ]


/-! ## cmd_pack (cli.py): budgeted selection -/

/-- The observation-row fields `_pack_item_text` reads. -/
structure PackRow where
  summary : Option String
  summary_en : Option String

/-- `text.replace("\n", " ")`. -/
def replaceNl (s : String) : String :=
  ⟨s.data.map (fun c => if c = '\n' then ' ' else c)⟩

/-- `_pack_item_text`: prefer `summary_en` over `summary`, collapse
newlines, strip. -/
def packItemText (row : PackRow) : String :=
  pyStrip (replaceNl (firstTruthy [row.summary_en, row.summary]))

/-- `_estimate_tokens(text) = max(1, (len(text) + 3) // 4)`. -/
def estimateTokens (text : String) : ℕ :=
  max 1 ((text.length + 3) / 4)

/-- One iteration of the `for rid in ordered_ids:` selection loop of
`cmd_pack` (cli.py:1915-1955), restricted to the state the claim is about:
the included `(id, text)` list and `used_tokens`.  The four guards appear
in source order: `missing_row`, `missing_summary`, `max_items_reached`,
`budget_tokens_exceeded`; otherwise the candidate is included and its
estimate charged.  The source's `token_estimate = _estimate_tokens(text) if
text else 0` is 0 only in the `missing_summary` branch, where it is unused,
so the surviving branches use `_estimate_tokens(text)` directly. -/
def packStep (limit budget : ℕ) (st : List (ℤ × String) × ℕ) :
    ℤ × Option PackRow → List (ℤ × String) × ℕ
  | (_, Option.none) => st
  | (rid, some row) =>
    if packItemText row = "" then st
    else if limit ≤ st.1.length then st
    else if budget < st.2 + estimateTokens (packItemText row) then st
    else (st.1 ++ [(rid, packItemText row)],
      st.2 + estimateTokens (packItemText row))

/-- The whole selection loop over the RRF-ordered candidates. -/
def packFold (limit budget : ℕ) (cands : List (ℤ × Option PackRow)) :
    List (ℤ × String) × ℕ :=
  cands.foldl (packStep limit budget) ([], 0)

theorem packStep_invariant (limit budget : ℕ)
    (st : List (ℤ × String) × ℕ) (cand : ℤ × Option PackRow)
    (h1 : st.2 = (st.1.map (fun it => estimateTokens it.2)).sum)
    (h2 : st.1.length ≤ limit) (h3 : st.2 ≤ budget) :
    (packStep limit budget st cand).2
        = ((packStep limit budget st cand).1.map
            (fun it => estimateTokens it.2)).sum ∧
      (packStep limit budget st cand).1.length ≤ limit ∧
      (packStep limit budget st cand).2 ≤ budget := by
  rcases cand with ⟨rid, row?⟩
  cases row? with
  | none => exact ⟨h1, h2, h3⟩
  | some row =>
    simp only [packStep]
    by_cases ht : packItemText row = ""
    · rw [if_pos ht]
      exact ⟨h1, h2, h3⟩
    · rw [if_neg ht]
      by_cases hl : limit ≤ st.1.length
      · rw [if_pos hl]
        exact ⟨h1, h2, h3⟩
      · rw [if_neg hl]
        by_cases hb : budget < st.2 + estimateTokens (packItemText row)
        · rw [if_pos hb]
          exact ⟨h1, h2, h3⟩
        · rw [if_neg hb]
          refine ⟨?_, ?_, ?_⟩
          · simp [h1]
          · simpa using Nat.succ_le_of_lt (Nat.lt_of_not_le hl)
          · exact Nat.le_of_not_lt hb

theorem packFold_invariant (limit budget : ℕ)
    (cands : List (ℤ × Option PackRow)) :
    ∀ st : List (ℤ × String) × ℕ,
      st.2 = (st.1.map (fun it => estimateTokens it.2)).sum →
      st.1.length ≤ limit → st.2 ≤ budget →
      (cands.foldl (packStep limit budget) st).2
          = ((cands.foldl (packStep limit budget) st).1.map
              (fun it => estimateTokens it.2)).sum ∧
        (cands.foldl (packStep limit budget) st).1.length ≤ limit ∧
        (cands.foldl (packStep limit budget) st).2 ≤ budget := by
  induction cands with
  | nil => intro st h1 h2 h3; exact ⟨h1, h2, h3⟩
  | cons c cs ih =>
    intro st h1 h2 h3
    have h := packStep_invariant limit budget st c h1 h2 h3
    exact ih _ h.1 h.2.1 h.2.2

/-! ### Claim C6 -/

/-- C6: each included candidate's token cost is `max(1, ceil(length/4))`;
a candidate with a resolvable row and non-empty text is included iff the
current included count is `< limit` and `used_tokens + estimate ≤ budget`;
consequently every pack keeps `included_count ≤ limit` and the sum of the
included items' token estimates (the final `used_tokens`) `≤ budget`. -/
theorem pack_selection_budget (cands : List (ℤ × Option PackRow))
    (limit budget : ℕ) :
    (∀ t : String, estimateTokens t = max 1 ((t.length + 4 - 1) / 4)) ∧
    (packFold limit budget cands).2
        = ((packFold limit budget cands).1.map
            (fun it => estimateTokens it.2)).sum ∧
    (packFold limit budget cands).1.length ≤ limit ∧
    ((packFold limit budget cands).1.map
        (fun it => estimateTokens it.2)).sum ≤ budget ∧
    (∀ pre rid row post, cands = pre ++ (rid, some row) :: post →
      packItemText row ≠ "" →
      packFold limit budget (pre ++ [(rid, some row)])
        = (if (packFold limit budget pre).1.length < limit ∧
              (packFold limit budget pre).2 + estimateTokens (packItemText row)
                ≤ budget
           then ((packFold limit budget pre).1 ++ [(rid, packItemText row)],
              (packFold limit budget pre).2 + estimateTokens (packItemText row))
           else packFold limit budget pre)) := by
  have hinv := packFold_invariant limit budget cands ([], 0) (by simp)
    (by simp) (by simp)
  refine ⟨fun t => rfl, hinv.1, hinv.2.1, hinv.1 ▸ hinv.2.2, ?_⟩
  intro pre rid row post _ htext
  have happ : packFold limit budget (pre ++ [(rid, some row)])
      = packStep limit budget (packFold limit budget pre) (rid, some row) := by
    unfold packFold
    rw [List.foldl_append]
    rfl
  rw [happ]
  simp only [packStep]
  rw [if_neg htext]
  by_cases hl : limit ≤ (packFold limit budget pre).1.length
  · have hcond : ¬((packFold limit budget pre).1.length < limit ∧
        (packFold limit budget pre).2 + estimateTokens (packItemText row)
          ≤ budget) :=
      fun hcon => absurd hcon.1 (Nat.not_lt_of_le hl)
    rw [if_pos hl, if_neg hcond]
  · rw [if_neg hl]
    by_cases hb : budget < (packFold limit budget pre).2
        + estimateTokens (packItemText row)
    · have hcond : ¬((packFold limit budget pre).1.length < limit ∧
          (packFold limit budget pre).2 + estimateTokens (packItemText row)
            ≤ budget) :=
        fun hcon => absurd hcon.2 (Nat.not_le_of_lt hb)
      rw [if_pos hb, if_neg hcond]
    · have hcond : (packFold limit budget pre).1.length < limit ∧
          (packFold limit budget pre).2 + estimateTokens (packItemText row)
            ≤ budget :=
        ⟨Nat.lt_of_not_le hl, Nat.le_of_not_lt hb⟩
      rw [if_neg hb, if_pos hcond]

/-- Witness for `pack_selection_budget` at one resolvable candidate with
text `hello world` (estimate 3 ≤ budget 1200), applied through the
include-iff clause. -/
theorem pack_selection_budget_witness :
    packFold 12 1200 [((1 : ℤ), some ⟨Option.none, some "hello world"⟩)]
      = ([((1 : ℤ), "hello world")], 3) := by
  have h := (pack_selection_budget
    [((1 : ℤ), some (⟨Option.none, some "hello world"⟩ : PackRow))] 12 1200).2.2.2.2
    [] 1 ⟨Option.none, some "hello world"⟩ [] rfl (by decide)
  simpa [packFold, packStep] using h

/-! ## Rerank fail-open (cli.py) -/

/-- Presence-aware dict lookup (`key in d` / `d[key]`), distinguishing an
absent key from a stored `None`. -/
def dictFind (entries : List (String × PyVal)) (key : String) :
    Option PyVal :=
  match entries with
  | [] => Option.none
  | (k, v) :: rest => if k = key then some v else dictFind rest key

/-- `int(x)` as applied to a rerank row's `index`: ints/floats truncate
toward zero, bools become 0/1, digit strings parse, everything else (None,
non-finite floats, other shapes) raises — modelled as `Option.none`. -/
def pyToIntV (v : PyVal) : Option ℤ :=
  match v with
  | .num (.finite q) => some (if 0 ≤ q then ⌊q⌋ else ⌈q⌉)
  | .num _ => Option.none
  | .bool b => some (if b then 1 else 0)
  | .str s =>
    let t := pyStrip s
    match t.toList with
    | '-' :: ds => if !ds.isEmpty && ds.all Char.isDigit
        then some (-(digitsToNat ds : ℤ)) else Option.none
    | '+' :: ds => if !ds.isEmpty && ds.all Char.isDigit
        then some (digitsToNat ds : ℤ) else Option.none
    | ds => if !ds.isEmpty && ds.all Char.isDigit
        then some (digitsToNat ds : ℤ) else Option.none
  | _ => Option.none

/-- `float(x)` as applied to a rerank row's score: numbers pass through
(non-finite included), bools become 0.0/1.0, strings go through the float
grammar, everything else raises. -/
def pyToFloatV (v : PyVal) : Option PyFloat :=
  match v with
  | .num x => some x
  | .bool b => some (.finite (if b then 1 else 0))
  | .str s => pyFloatOfString s
  | _ => Option.none

/-- The response-shape handling of `_call_rerank_provider`
(cli.py:1464-1480) after a successful HTTP round-trip and JSON decode:
a non-dict payload or a missing/non-list `results` yields `[]` (silently);
rows that are not dicts, or whose `index`/score fail conversion, are
skipped. -/
def rerankExtract (parsed : PyVal) : List (ℤ × PyFloat) :=
  match parsed with
  | .dict entries =>
    match dictFind entries "results" with
    | some (.list rows) =>
      rows.filterMap (fun row =>
        match row with
        | .dict re =>
          let idx := (dictFind re "index").getD .none
          let score :=
            match dictFind re "relevance_score" with
            | some v => v
            | Option.none => (dictFind re "score").getD (.num (.finite 0))
          match pyToIntV idx, pyToFloatV score with
          | some i, some f => some (i, f)
          | _, _ => Option.none
        | _ => Option.none)
    | _ => []
  | _ => []

/-- The reordering applied on a non-empty rerank result
(cli.py:1659-1677): winning in-range indices first (deduplicated, scores
recorded once), then the unseen candidates in base RRF order. -/
def rerankReorder (orderedIds : List ℤ) (rows : List (ℤ × PyFloat)) :
    List ℤ × List (ℤ × PyFloat) :=
  let st := rows.foldl (fun (st : List ℤ × List (ℤ × PyFloat)) r =>
    if h : 0 ≤ r.1 ∧ r.1.toNat < orderedIds.length then
      let rid := orderedIds.get ⟨r.1.toNat, h.2⟩
      if rid ∈ st.1 then st else (st.1 ++ [rid], st.2 ++ [(rid, r.2)])
    else st) ([], [])
  (st.1 ++ orderedIds.filter (fun rid => rid ∉ st.1), st.2)

/-- What the rerank section of `_hybrid_retrieve` produces. -/
structure RerankOutcome where
  ordered : List ℤ
  scores : List (ℤ × PyFloat)
  applied : Bool
  warnings : List String
deriving DecidableEq, Repr

/-- The rerank section of `_hybrid_retrieve` (cli.py:1627-1683).  `enabled`
is `rerank_provider != "none"`; the HTTP call plus JSON decode is the
`response` oracle: `.error` for any raised exception (network error, HTTP
error, undecodable body — all caught by the blanket `except` and warned),
`.ok parsed` for a decoded body, which then flows through
`rerankExtract`.  An empty extraction leaves the base ordering silently. -/
def rerankPhase (orderedIds : List ℤ) (provider : String) (enabled : Bool)
    (apiKey : Option String) (response : Except String PyVal) :
    RerankOutcome :=
  if enabled ∧ orderedIds ≠ [] then
    if ¬ (provider = "jina" ∨ provider = "cohere") then
      ⟨orderedIds, [], false,
        ["rerank provider unsupported; using base RRF ranking."]⟩
    else
      match apiKey with
      | Option.none =>
        ⟨orderedIds, [], false,
          ["rerank provider enabled but API key missing; using base RRF ranking."]⟩
      | some _ =>
        match response with
        | .error e =>
          ⟨orderedIds, [], false,
            ["rerank failed (" ++ e ++ "); using base RRF ranking."]⟩
        | .ok parsed =>
          let rows := rerankExtract parsed
          if rows = [] then ⟨orderedIds, [], false, []⟩
          else
            let r := rerankReorder orderedIds rows
            ⟨r.1, r.2, true, []⟩
  else ⟨orderedIds, [], false, []⟩

/-! ### Claim C7 -/

/-- C7 (amended): with a rerank provider configured, every RAISING failure
path — unsupported provider name, missing API key, network/HTTP error or
undecodable response body — emits a diagnostic warning and returns the base
RRF ordering unchanged with `rerank_applied` false; but a decodable
response whose shape is malformed (no `results` list, or no usable row)
also keeps the base ordering with `rerank_applied` false while emitting NO
warning. -/
theorem rerank_fail_open_amended (orderedIds : List ℤ) (provider : String)
    (apiKey : Option String) (response : Except String PyVal)
    (hne : orderedIds ≠ []) :
    (¬ (provider = "jina" ∨ provider = "cohere") →
      (rerankPhase orderedIds provider true apiKey response).ordered
          = orderedIds ∧
        (rerankPhase orderedIds provider true apiKey response).applied
          = false ∧
        (rerankPhase orderedIds provider true apiKey response).warnings
          ≠ []) ∧
    ((provider = "jina" ∨ provider = "cohere") → apiKey = Option.none →
      (rerankPhase orderedIds provider true apiKey response).ordered
          = orderedIds ∧
        (rerankPhase orderedIds provider true apiKey response).applied
          = false ∧
        (rerankPhase orderedIds provider true apiKey response).warnings
          ≠ []) ∧
    ((provider = "jina" ∨ provider = "cohere") → ∀ k e,
      apiKey = some k → response = .error e →
      (rerankPhase orderedIds provider true apiKey response).ordered
          = orderedIds ∧
        (rerankPhase orderedIds provider true apiKey response).applied
          = false ∧
        (rerankPhase orderedIds provider true apiKey response).warnings
          ≠ []) ∧
    ((provider = "jina" ∨ provider = "cohere") → ∀ k parsed,
      apiKey = some k → response = .ok parsed → rerankExtract parsed = [] →
      (rerankPhase orderedIds provider true apiKey response).ordered
          = orderedIds ∧
        (rerankPhase orderedIds provider true apiKey response).applied
          = false ∧
        (rerankPhase orderedIds provider true apiKey response).warnings
          = []) := by
  refine ⟨?_, ?_, ?_, ?_⟩
  · intro hp
    rw [rerankPhase.eq_def, if_pos ⟨rfl, hne⟩, if_pos hp]
    exact ⟨rfl, rfl, by simp⟩
  · intro hp hk
    subst hk
    rw [rerankPhase.eq_def, if_pos ⟨rfl, hne⟩, if_neg (not_not_intro hp)]
    exact ⟨rfl, rfl, by simp⟩
  · intro hp k e hk he
    subst hk
    subst he
    rw [rerankPhase.eq_def, if_pos ⟨rfl, hne⟩, if_neg (not_not_intro hp)]
    exact ⟨rfl, rfl, by simp⟩
  · intro hp k parsed hk hr hrows
    subst hk
    subst hr
    rw [rerankPhase.eq_def, if_pos ⟨rfl, hne⟩, if_neg (not_not_intro hp)]
    simp only [hrows]
    exact ⟨rfl, rfl, rfl⟩

/-- Witness for `rerank_fail_open_amended`: an unsupported provider keeps
the base order `[1, 2]` and warns; a `{}` response body keeps it silently. -/
theorem rerank_fail_open_amended_witness :
    ((rerankPhase [1, 2] "acme" true (some "key") (.ok (.dict []))).ordered
        = [1, 2] ∧
      (rerankPhase [1, 2] "acme" true (some "key")
          (.ok (.dict []))).applied = false ∧
      (rerankPhase [1, 2] "acme" true (some "key")
          (.ok (.dict []))).warnings ≠ []) ∧
    ((rerankPhase [1, 2] "jina" true (some "key") (.ok (.dict []))).ordered
        = [1, 2] ∧
      (rerankPhase [1, 2] "jina" true (some "key")
          (.ok (.dict []))).applied = false ∧
      (rerankPhase [1, 2] "jina" true (some "key")
          (.ok (.dict []))).warnings = []) := by
  constructor
  · exact (rerank_fail_open_amended [1, 2] "acme" (some "key")
      (.ok (.dict [])) (by decide)).1 (by decide)
  · exact (rerank_fail_open_amended [1, 2] "jina" (some "key")
      (.ok (.dict [])) (by decide)).2.2.2 (Or.inl rfl) "key" (.dict [])
      rfl rfl rfl

/-- C7 counterexample: provider `jina`, API key present, HTTP 200 with the
malformed body `{}` (no `results` array).  The engine keeps the base
ordering and `rerank_applied` stays false, but — contrary to the claim —
no diagnostic warning is emitted on this failure path. -/
theorem rerank_malformed_response_counterexample :
    rerankPhase [1, 2] "jina" true (some "key") (.ok (.dict []))
      = ⟨[1, 2], [], false, []⟩ := by
  rw [rerankPhase.eq_def, if_pos ⟨rfl, by decide⟩,
    if_neg (not_not_intro (Or.inl rfl))]
  rfl

/-! ## cmd_harvest (cli.py) -/

/-- Stable ascending insertion by filename: a later element goes after all
earlier elements with an equal or smaller name (Python's `sort()` is
stable). -/
def insByName {α : Type} (x : String × List α) :
    List (String × List α) → List (String × List α)
  | [] => [x]
  | y :: ys => if x.1 < y.1 then x :: y :: ys else y :: insByName x ys

/-- `sorted(...)` / `.sort()` over (same-directory) paths: lexicographic
ascending on the file name. -/
def sortByName {α : Type} (l : List (String × List α)) :
    List (String × List α) :=
  l.foldl (fun acc x => insByName x acc) []

/-- The harvest receipt fields the claim is about. -/
structure HarvestOut (α : Type) where
  ingested : List α
  processedFiles : List String
  recovered : Bool
  rotated : Bool
  remaining : List String

/-- `cmd_harvest` (cli.py:2727-2894) over an explicit file-system state:
`liveLog` is the live log's records when the file exists (`[]` for an
existing empty file), `pfiles` the `<logname>.*.processing` siblings found
by the recovery sweep, `rotName` the timestamped name rotation would use.
Steps: sort the recovered files; `recovered = bool(processing_files)`;
rotate a non-empty live log into the queue and re-sort; stop early when the
queue is empty; ingest every queued file in ascending filename order; then
archive/delete every processed file (so none remains). -/
def harvestRun {α : Type} (liveLog : Option (List α)) (rotName : String)
    (pfiles : List (String × List α)) : HarvestOut α :=
  let files := sortByName pfiles
  let recovered := !pfiles.isEmpty
  let queue :=
    match liveLog with
    | some recs =>
      if recs.isEmpty then (files, false)
      else (sortByName (files ++ [(rotName, recs)]), true)
    | Option.none => (files, false)
  if queue.1.isEmpty then ⟨[], [], recovered, queue.2, []⟩
  else
    ⟨(queue.1.map Prod.snd).flatten, queue.1.map Prod.fst, recovered,
      queue.2, []⟩

theorem insByName_perm {α : Type} (x : String × List α)
    (l : List (String × List α)) :
    List.Perm (insByName x l) (x :: l) := by
  induction l with
  | nil => exact List.Perm.refl _
  | cons y ys ih =>
    by_cases h : x.1 < y.1
    · simp only [insByName, if_pos h]
      exact List.Perm.refl _
    · simp only [insByName, if_neg h]
      exact (ih.cons y).trans (List.Perm.swap x y ys)

theorem insByName_sorted {α : Type} {x : String × List α}
    {l : List (String × List α)}
    (h : l.Pairwise (fun a b => a.1 ≤ b.1)) :
    (insByName x l).Pairwise (fun a b => a.1 ≤ b.1) := by
  induction l with
  | nil => simp [insByName]
  | cons y ys ih =>
    rcases List.pairwise_cons.mp h with ⟨hy, hys⟩
    by_cases hlt : x.1 < y.1
    · simp only [insByName, if_pos hlt]
      refine List.pairwise_cons.mpr ⟨?_, h⟩
      intro z hz
      rcases List.mem_cons.mp hz with h1 | h2
      · exact h1 ▸ le_of_lt hlt
      · exact (le_of_lt hlt).trans (hy z h2)
    · simp only [insByName, if_neg hlt]
      refine List.pairwise_cons.mpr ⟨?_, ih hys⟩
      intro z hz
      rcases List.mem_cons.mp ((insByName_perm x ys).mem_iff.mp hz) with h1 | h2
      · exact h1 ▸ le_of_not_lt hlt
      · exact hy z h2

theorem sortByName_sorted {α : Type} (l : List (String × List α)) :
    (sortByName l).Pairwise (fun a b => a.1 ≤ b.1) := by
  suffices h : ∀ acc : List (String × List α),
      acc.Pairwise (fun a b => a.1 ≤ b.1) →
      (l.foldl (fun acc x => insByName x acc) acc).Pairwise
        (fun a b => a.1 ≤ b.1) from h [] (by simp)
  induction l with
  | nil => intro acc h; exact h
  | cons a l ih => intro acc h; exact ih _ (insByName_sorted h)

theorem sortByName_perm {α : Type} (l : List (String × List α)) :
    List.Perm (sortByName l) l := by
  suffices h : ∀ acc : List (String × List α),
      List.Perm (l.foldl (fun acc x => insByName x acc) acc) (acc ++ l) by
    simpa using h []
  induction l with
  | nil => intro acc; simp
  | cons a l ih =>
    intro acc
    have h1 : ((a :: l).foldl (fun acc x => insByName x acc) acc)
        = l.foldl (fun acc x => insByName x acc) (insByName a acc) := rfl
    rw [h1]
    refine (ih (insByName a acc)).trans ?_
    refine ((insByName_perm a acc).append_right l).trans ?_
    exact (List.perm_middle).symm

/-! ### Claim C8 -/

/-- C8: every `*.processing` sibling found at startup is queued; with no
live log the run ingests exactly the queued files' records concatenated in
ascending (lexicographic) filename order — the queue is the sorted
permutation of the recovered files — and every processed file is archived
or deleted (none remains).  In particular a single orphaned file with no
live log yields exactly its records, `recovered = true`, `rotated = false`,
and the file is processed and removed. -/
theorem harvest_recovery_sweep {α : Type} (pfiles : List (String × List α))
    (rotName : String) :
    (harvestRun (α := α) Option.none rotName pfiles).ingested
        = ((sortByName pfiles).map Prod.snd).flatten ∧
    (sortByName pfiles).Pairwise (fun a b => a.1 ≤ b.1) ∧
    List.Perm (sortByName pfiles) pfiles ∧
    (harvestRun (α := α) Option.none rotName pfiles).remaining = [] ∧
    (∀ n recs, harvestRun (α := α) Option.none rotName [(n, recs)]
        = ⟨recs, [n], true, false, []⟩) := by
  refine ⟨?_, sortByName_sorted pfiles, sortByName_perm pfiles, ?_, ?_⟩
  · rw [harvestRun.eq_def]
    cases hq : (sortByName pfiles).isEmpty with
    | true =>
      have h0 : sortByName pfiles = [] := by simpa using hq
      simp [hq, h0]
    | false => simp [hq]
  · rw [harvestRun.eq_def]
    cases hq : (sortByName pfiles).isEmpty with
    | true => simp [hq]
    | false => simp [hq]
  · intro n recs
    have hs : sortByName [(n, recs)] = [(n, recs)] := rfl
    rw [harvestRun.eq_def]
    simp [hs]

/-! ## _insert_observation (cli.py): surrogate sanitization -/

/-- Python strings as code-point lists: unlike Lean's `String`, a Python
`str` can carry lone UTF-16 surrogates (U+D800–U+DFFF), which is exactly
what sanitization is about. -/
abbrev PyStr : Type := List ℕ

/-- `_SURROGATE_MIN <= ord(ch) <= _SURROGATE_MAX` (cli.py:294-295). -/
def isSurrogate (c : ℕ) : Bool :=
  55296 ≤ c && c ≤ 57343

/-- `_sanitize_str_surrogates` (cli.py:298-315): the string is returned
unchanged when it carries no surrogate (the fast path), otherwise every
lone surrogate code point is replaced with U+FFFD (65533). -/
def sanitizeStr (s : PyStr) : PyStr :=
  if (s : List ℕ).any isSurrogate then
    (s : List ℕ).map (fun c => if isSurrogate c then 65533 else c)
  else s

/-- A JSON-decodable Python value as stored in `detail_json`. -/
inductive PyJson where
  | null
  | bool (b : Bool)
  | num (q : ℚ)
  | str (s : PyStr)
  | arr (xs : List PyJson)
  | obj (entries : List (PyStr × PyJson))

mutual

/-- `_sanitize_jsonable_surrogates` (cli.py:318-329): sanitize strings,
dict keys and recursively dict values and list elements; other scalars are
untouched. -/
def sanitizeJsonable : PyJson → PyJson
  | .str s => .str (sanitizeStr s)
  | .obj es => .obj (sanitizeObjEntries es)
  | .arr xs => .arr (sanitizeArrElems xs)
  | x => x

def sanitizeObjEntries : List (PyStr × PyJson) → List (PyStr × PyJson)
  | [] => []
  | (k, v) :: rest => (sanitizeStr k, sanitizeJsonable v) :: sanitizeObjEntries rest

def sanitizeArrElems : List PyJson → List PyJson
  | [] => []
  | x :: xs => sanitizeJsonable x :: sanitizeArrElems xs

end

/-- No lone surrogate code point in the string. -/
def strClean (s : PyStr) : Bool :=
  (s : List ℕ).all (fun c => !isSurrogate c)

mutual

/-- Every string (key or value, at any depth) is surrogate-free. -/
def jsonClean : PyJson → Bool
  | .str s => strClean s
  | .obj es => objClean es
  | .arr xs => arrClean xs
  | _ => true

def objClean : List (PyStr × PyJson) → Bool
  | [] => true
  | (k, v) :: rest => strClean k && jsonClean v && objClean rest

def arrClean : List PyJson → Bool
  | [] => true
  | x :: xs => jsonClean x && arrClean xs

end

theorem sanitizeStr_clean (s : PyStr) : strClean (sanitizeStr s) = true := by
  unfold sanitizeStr strClean
  by_cases h : (s : List ℕ).any isSurrogate
  · rw [if_pos h]
    simp only [List.all_eq_true]
    intro c hc
    rcases List.mem_map.mp hc with ⟨a, _, ha⟩
    by_cases hs : isSurrogate a
    · rw [if_pos hs] at ha
      subst ha
      rfl
    · rw [if_neg hs] at ha
      subst ha
      simpa using hs
  · rw [if_neg h]
    simp only [List.all_eq_true]
    intro c hc
    rw [List.any_eq_true] at h
    push_neg at h
    simpa using h c hc

mutual

theorem sanitizeJsonable_clean (x : PyJson) :
    jsonClean (sanitizeJsonable x) = true := by
  cases x with
  | str s => exact sanitizeStr_clean s
  | obj es => exact sanitizeObjEntries_clean es
  | arr xs => exact sanitizeArrElems_clean xs
  | null => rfl
  | bool b => rfl
  | num q => rfl

theorem sanitizeObjEntries_clean (es : List (PyStr × PyJson)) :
    objClean (sanitizeObjEntries es) = true := by
  cases es with
  | nil => rfl
  | cons kv rest =>
    rcases kv with ⟨k, v⟩
    simp only [sanitizeObjEntries, objClean, Bool.and_eq_true]
    exact ⟨⟨sanitizeStr_clean k, sanitizeJsonable_clean v⟩,
      sanitizeObjEntries_clean rest⟩

theorem sanitizeArrElems_clean (xs : List PyJson) :
    arrClean (sanitizeArrElems xs) = true := by
  cases xs with
  | nil => rfl
  | cons x rest =>
    simp only [sanitizeArrElems, arrClean, Bool.and_eq_true]
    exact ⟨sanitizeJsonable_clean x, sanitizeArrElems_clean rest⟩

end

/-- The caller-supplied observation dict fields `_insert_observation`
reads (cli.py:332-456).  `extras` stands for the remaining top-level keys
outside the known set, which are folded into the detail object. -/
structure ObsDictIn where
  ts : Option PyStr
  kind : Option PyStr
  summary : Option PyStr
  summary_en : Option PyStr
  text_en : Option PyStr
  lang : Option PyStr
  tool_name : Option PyStr
  tool : Option PyStr
  detail : Option PyJson
  detail_json : Option PyJson
  extras : List (PyStr × PyJson)

/-- The seven values bound into the `INSERT INTO observations` statement
(and mirrored into the FTS index). -/
structure BoundRow where
  ts : PyStr
  kind : Option PyStr
  summary : Option PyStr
  summary_en : Option PyStr
  lang : Option PyStr
  tool_name : Option PyStr
  detail : PyJson

/-- Python `a or b` over optional strings (None and "" are falsy). -/
def pyOr2 (a b : Option PyStr) : Option PyStr :=
  match a with
  | some s => if (s : List ℕ).isEmpty then b else some s
  | Option.none => b

/-- Python truthiness of a JSON value. -/
def pyTruthyJson : PyJson → Bool
  | .null => false
  | .bool b => b
  | .num q => q ≠ 0
  | .str s => !(s : List ℕ).isEmpty
  | .arr xs => !xs.isEmpty
  | .obj es => !es.isEmpty

/-- `detail_obj.update(extras)`: replace an existing key in place,
otherwise append. -/
def objUpdateOne (es : List (PyStr × PyJson)) (kv : PyStr × PyJson) :
    List (PyStr × PyJson) :=
  match es with
  | [] => [kv]
  | (k, v) :: rest =>
    if k = kv.1 then (k, kv.2) :: rest
    else (k, v) :: objUpdateOne rest kv

def objUpdate (es extras : List (PyStr × PyJson)) :
    List (PyStr × PyJson) :=
  extras.foldl objUpdateOne es

/-- `_insert_observation` (cli.py:332-456) restricted to the values it
binds, with the importance autograder disabled (its default; when enabled
it only adds an object of ASCII literals derived from the already-sanitized
fields) and the run-summary accounting dropped (it binds nothing).
`now` is `_utcnow_iso()`.  The textual fields pass through
`_sanitize_str_surrogates`; `ts` does not.  A string-valued detail is
wrapped as `{_raw_detail: ...}` (on a successful `json.loads` the decoded
object flows through the same later sanitization step); any other non-dict
detail is wrapped as `{_detail: ...}`; extras are folded in before the
whole object is sanitized. -/
def insertObservationBinds (obs : ObsDictIn) (now : PyStr) : BoundRow :=
  let ts := match obs.ts with
    | some s => if (s : List ℕ).isEmpty then now else s
    | Option.none => now
  let baseDetail : PyJson := match obs.detail with
    | some d => d
    | Option.none =>
      match obs.detail_json with
      | some d => if pyTruthyJson d then d else .obj []
      | Option.none => .obj []
  let detailObj : List (PyStr × PyJson) := match baseDetail with
    | .obj es => es
    | .str s => [(([95, 114, 97, 119, 95, 100, 101, 116, 97, 105, 108] : List ℕ), .str s)]
    | other => [(([95, 100, 101, 116, 97, 105, 108] : List ℕ), other)]
  let detailObj2 := objUpdate detailObj obs.extras
  { ts := ts
    kind := obs.kind.map sanitizeStr
    summary := obs.summary.map sanitizeStr
    summary_en := (pyOr2 obs.summary_en obs.text_en).map sanitizeStr
    lang := obs.lang.map sanitizeStr
    tool_name := (pyOr2 obs.tool_name obs.tool).map sanitizeStr
    detail := sanitizeJsonable (.obj detailObj2) }

/-! ### Claim C5 -/

/-- The counterexample observation: a caller-supplied `ts` consisting of
the lone surrogate U+D800. -/
def obsSurrogateTs : ObsDictIn :=
  ⟨some [55296], Option.none, Option.none, Option.none, Option.none,
    Option.none, Option.none, Option.none, Option.none, Option.none, []⟩

/-- C5 counterexample: `_insert_observation` binds the caller-supplied
`ts` verbatim — the lone surrogate U+D800 in it is NOT replaced with
U+FFFD, contradicting the claim that every textual field (`ts` included)
is sanitized at insert time. -/
theorem insert_ts_not_sanitized_counterexample :
    (insertObservationBinds obsSurrogateTs [48]).ts = [55296] ∧
    isSurrogate 55296 = true ∧
    strClean ((insertObservationBinds obsSurrogateTs [48]).ts) = false := by
  exact ⟨rfl, rfl, rfl⟩

/-- C5 (amended): for every observation insert, the textual fields `kind`,
`summary`, `summary_en`, `lang`, `tool_name` and every string key or value
inside `detail` are surrogate-free after insert (each lone surrogate
replaced with U+FFFD) — but `ts` is bound exactly as supplied (or stamped
from the clock when absent/empty), without sanitization. -/
theorem insert_sanitizes_all_but_ts (obs : ObsDictIn) (now : PyStr) :
    (∀ s, (insertObservationBinds obs now).kind = some s →
      strClean s = true) ∧
    (∀ s, (insertObservationBinds obs now).summary = some s →
      strClean s = true) ∧
    (∀ s, (insertObservationBinds obs now).summary_en = some s →
      strClean s = true) ∧
    (∀ s, (insertObservationBinds obs now).lang = some s →
      strClean s = true) ∧
    (∀ s, (insertObservationBinds obs now).tool_name = some s →
      strClean s = true) ∧
    jsonClean (insertObservationBinds obs now).detail = true ∧
    (insertObservationBinds obs now).ts
      = (match obs.ts with
          | some s => if (s : List ℕ).isEmpty then now else s
          | Option.none => now) := by
  refine ⟨?_, ?_, ?_, ?_, ?_, ?_, rfl⟩
  · intro s hs
    rcases Option.map_eq_some'.mp hs with ⟨a, _, ha⟩
    exact ha ▸ sanitizeStr_clean a
  · intro s hs
    rcases Option.map_eq_some'.mp hs with ⟨a, _, ha⟩
    exact ha ▸ sanitizeStr_clean a
  · intro s hs
    rcases Option.map_eq_some'.mp hs with ⟨a, _, ha⟩
    exact ha ▸ sanitizeStr_clean a
  · intro s hs
    rcases Option.map_eq_some'.mp hs with ⟨a, _, ha⟩
    exact ha ▸ sanitizeStr_clean a
  · intro s hs
    rcases Option.map_eq_some'.mp hs with ⟨a, _, ha⟩
    exact ha ▸ sanitizeStr_clean a
  · exact sanitizeJsonable_clean _

/-- Witness for `insert_sanitizes_all_but_ts`: a summary carrying the lone
surrogate U+D801 comes back with U+FFFD in its place, clean. -/
theorem insert_sanitizes_all_but_ts_witness :
    (insertObservationBinds
        ⟨Option.none, Option.none, some [55297, 97], Option.none,
          Option.none, Option.none, Option.none, Option.none, Option.none,
          Option.none, []⟩ [48]).summary = some [65533, 97] ∧
    strClean [65533, 97] = true := by
  refine ⟨rfl, ?_⟩
  exact (insert_sanitizes_all_but_ts
    ⟨Option.none, Option.none, some [55297, 97], Option.none, Option.none,
      Option.none, Option.none, Option.none, Option.none, Option.none, []⟩
    [48]).2.1 [65533, 97] rfl

/-! ## Claim C1: the fusion call in `_hybrid_retrieve` -/

/-- `rank_rrf` (vector.py:76-81) puts a bare `*` before all of its
parameters (`ranked_lists`, `k`, `limit`), making every one keyword-only:
the function accepts zero positional arguments. -/
def rankRrfPositionalParamCount : ℕ := 0

/-- `_hybrid_retrieve` calls
`rank_rrf(ranked_lists, k=k, limit=candidate_limit)` (cli.py:1604),
passing `ranked_lists` as one positional argument. -/
def hybridRrfCallPositionalArgCount : ℕ := 1

/-- Python binds a call only when the positional arguments fit into the
positional parameters; otherwise it raises
`TypeError: ... takes 0 positional arguments but 1 was given`. -/
def pyPositionalBindOk (params args : ℕ) : Bool :=
  args ≤ params

/-- C1: the fusion call cannot bind — `_hybrid_retrieve` raises `TypeError`
at the `rank_rrf` call before any `ordered_ids` is produced.  (The fusion
semantics the claim describes is exactly `rankRrf [fts, vec] (++ vec_en)`
per `rank_rrf_amended_spec`; the slip is only in the calling convention:
`tests/test_vector.py:50` makes the same positional call and expects it to
succeed.) -/
theorem hybrid_rrf_call_cannot_bind :
    pyPositionalBindOk rankRrfPositionalParamCount
        hybridRrfCallPositionalArgCount = false ∧
    rankRrfPositionalParamCount = 0 ∧
    hybridRrfCallPositionalArgCount = 1 := by
  exact ⟨rfl, rfl, rfl⟩

/-! ## Claim C2: the `pack.trace.v1` schema vs `cmd_pack` -/

/-- The fields of the `PackTraceV1Decision` dataclass
(pack_trace_v1.py:62-66): `included`, `reason`, `caps` — and nothing
else. -/
def packTraceV1DecisionFields : List String :=
  ["included", "reason", "caps"]

/-- The fields of the `PackTraceV1Output` dataclass
(pack_trace_v1.py:93-99). -/
def packTraceV1OutputFields : List String :=
  ["includedCount", "excludedCount", "l2IncludedCount", "citationsCount",
    "refreshedRecordRefs"]

/-- Every class defined in `pack_trace_v1.py`. -/
def packTraceV1ModuleClasses : List String :=
  ["PackTraceV1Version", "PackTraceV1Query", "PackTraceV1Budgets",
    "PackTraceV1Retriever", "PackTraceV1Lane", "PackTraceV1DecisionCaps",
    "PackTraceV1Decision", "PackTraceV1CandidateScores",
    "PackTraceV1CandidateCitations", "PackTraceV1Candidate",
    "PackTraceV1Output", "PackTraceV1Timing", "PackTraceV1"]

/-- The keyword arguments `cmd_pack` passes to `PackTraceV1Decision`
(cli.py:1968-1976). -/
def cmdPackDecisionCallKeywords : List String :=
  ["included", "reason", "rationale", "caps"]

/-- The keyword arguments `cmd_pack` passes to `PackTraceV1Output`
(cli.py:2041-2053). -/
def cmdPackOutputCallKeywords : List String :=
  ["includedCount", "excludedCount", "l2IncludedCount", "citationsCount",
    "refreshedRecordRefs", "coverage"]

/-- A Python dataclass constructor call binds only when every keyword
matches a declared field; an unknown keyword raises
`TypeError: __init__() got an unexpected keyword argument`. -/
def dataclassCallOk (fields kwargs : List String) : Bool :=
  kwargs.all (fun kw => fields.contains kw)

/-- C2: the trace the claim (and the spec, and `tests/test_cli.py`'s
pack-trace tests) describes cannot be built from this schema module:
`cmd_pack` passes `rationale=` to `PackTraceV1Decision`, whose dataclass
has no such field, and `coverage=` to `PackTraceV1Output`, which has no
such field either; the `PackTraceV1Coverage` class `cmd_pack` references
does not exist in `pack_trace_v1.py` at all.  Every pack run with at least
one candidate raises `TypeError` while building the candidate's decision
block. -/
theorem pack_trace_schema_mismatch :
    dataclassCallOk packTraceV1DecisionFields cmdPackDecisionCallKeywords
        = false ∧
    ("rationale" ∈ cmdPackDecisionCallKeywords ∧
      "rationale" ∉ packTraceV1DecisionFields) ∧
    dataclassCallOk packTraceV1OutputFields cmdPackOutputCallKeywords
        = false ∧
    ("coverage" ∈ cmdPackOutputCallKeywords ∧
      "coverage" ∉ packTraceV1OutputFields) ∧
    "PackTraceV1Coverage" ∉ packTraceV1ModuleClasses := by
  exact ⟨rfl, ⟨by decide, by decide⟩, rfl, ⟨by decide, by decide⟩, by decide⟩

end OpenclawMem
